import Mathlib

/-!
Shallow embedding of `src/app.py` (a Streamlit Yahoo-Finance quote viewer).

Strings are modelled as `List Char` (`Str`).  Python `str.strip` is modelled
with `Char.isWhitespace`; `str.splitlines` is modelled on the universal line
terminators `\n`, `\r\n`, `\r` (the exotic Unicode terminators are not
modelled).  `pandas.DataFrame` rows are modelled as a list of `QuoteRow`
structures; `df.sort_values("symbol")` is modelled as a stable merge sort on
the symbol column with missing symbols ordered last (pandas puts NaN last).

The network-facing functions (`get_yahoo_session`, `get_crumb`, `quote_once`,
`fetch_quotes_cached`) are embedded as explicit state-passing functions over
`SessState` (mirroring `st.session_state`), an `Env` oracle that scripts the
HTTP responses of the three endpoints, and a `Trace` recording every request
issued together with the `crumb` query parameter of each quote request.
Python exceptions (`requests.HTTPError` from `raise_for_status`, and the
`RuntimeError` in `get_crumb`) are embedded as the `HErr` error type of an
`Except` result; state and trace mutations made before a raise persist, so
every function returns its state and trace alongside the `Except`.
-/

abbrev Str := List Char

/-- Python `str.strip()` with no argument: strip leading whitespace. -/
def trimLeft (l : Str) : Str := l.dropWhile Char.isWhitespace

/-- Python `str.strip()` with no argument: strip trailing whitespace. -/
def trimRight (l : Str) : Str := (l.reverse.dropWhile Char.isWhitespace).reverse

/-- Python `str.strip()`. -/
def pyStrip (l : Str) : Str := trimRight (trimLeft l)

/-- `normalize_symbol` from `src/app.py`: strip the line, drop it when empty
or when it starts with `#`, and append `.T` when it is exactly 4 digits. -/
def normalize_symbol (line : Str) : Option Str :=
  let s := pyStrip line
  if s = [] ∨ s.head? = some '#' then none
  else if s.all Char.isDigit ∧ s.length = 4 then some (s ++ ['.', 'T'])
  else some s

/-- Helper for `str.splitlines`: split on `\n`, `\r\n` and `\r`, keeping the
(possibly empty) final segment. -/
def splitLinesAux : List Char → List (List Char)
  | [] => [[]]
  | '\r' :: '\n' :: cs => [] :: splitLinesAux cs
  | '\n' :: cs => [] :: splitLinesAux cs
  | '\r' :: cs => [] :: splitLinesAux cs
  | c :: cs =>
    match splitLinesAux cs with
    | [] => [[]]
    | r :: rs => (c :: r) :: rs

/-- Python `str.splitlines()`: line terminators end lines, so a trailing
terminator does not produce a trailing empty line, and `"".splitlines() = []`. -/
def pySplitlines (l : Str) : List Str :=
  let r := splitLinesAux l
  if r.getLast? = some [] then r.dropLast else r

/-- Comparison used to model Python `sorted` on strings (lexicographic by
code point, a proper prefix coming first). -/
def strLe (a b : Str) : Bool := decide (a ≤ b)

/-- `load_symbols_from_text` from `src/app.py`: normalize every line, drop the
`None`s, deduplicate and sort (`sorted(set(symbols))`).  Python `sorted` is a
stable sort; it is modelled by insertion sort, which is also stable (and the
elements are distinct here, so any sort agrees). -/
def load_symbols_from_text (text : Str) : List Str :=
  (((pySplitlines text).filterMap normalize_symbol).dedup).insertionSort (· ≤ ·)

/-- Recursion worker for `chunk_list`: peel `size` elements at a time; the
`fuel` argument (instantiated with the list length, which strictly bounds
the number of nonempty chunks) only makes the recursion structural. -/
def chunkAux (size : ℕ) : ℕ → List α → List (List α)
  | 0, _ => []
  | _, [] => []
  | fuel + 1, a :: rest =>
    (a :: rest).take size :: chunkAux size fuel ((a :: rest).drop size)

/-- `chunk_list` from `src/app.py`:
`[items[i : i + size] for i in range(0, len(items), size)]`.
(Python raises `ValueError` on `size = 0`; the embedding returns `[]` there,
and every claim about chunking assumes `size ≥ 1`.) -/
def chunk_list (items : List α) (size : ℕ) : List (List α) :=
  if size = 0 then [] else chunkAux size items.length items

/-- Decimal digits of `n`, padded with leading zeros to width `w`. -/
def padNat (w n : ℕ) : Str :=
  let ds := Nat.toDigits 10 n
  List.replicate (w - ds.length) '0' ++ ds

/-- Proleptic Gregorian date for a count of days since 1970-01-01
(Howard Hinnant's `civil_from_days`), as `(year, month, day)`. -/
def civilFromDays (days : Int) : Int × ℕ × ℕ :=
  let z : Int := days + 719468
  let era : Int := z.fdiv 146097
  let doe : ℕ := (z - era * 146097).toNat
  let yoe : ℕ := (doe - doe / 1460 + doe / 36524 - doe / 146096) / 365
  let doy : ℕ := doe - (365 * yoe + yoe / 4 - yoe / 100)
  let mp : ℕ := (5 * doy + 2) / 153
  let d : ℕ := doy - (153 * mp + 2) / 5 + 1
  let m : ℕ := if mp < 10 then mp + 3 else mp - 9
  (((yoe : Int) + era * 400) + (if m ≤ 2 then 1 else 0), m, d)

/-- `datetime.fromtimestamp(epoch, tz=JST).strftime("%Y-%m-%d %H:%M:%S")`:
JST is the fixed offset UTC+9 (no DST). -/
def formatJstEpoch (epoch : Int) : Str :=
  let t : Int := epoch + 9 * 3600
  let days : Int := t.fdiv 86400
  let sod : ℕ := (t - days * 86400).toNat
  let ymd := civilFromDays days
  padNat 4 ymd.1.toNat ++ '-' :: padNat 2 ymd.2.1 ++ '-' :: padNat 2 ymd.2.2
    ++ ' ' :: padNat 2 (sod / 3600) ++ ':' :: padNat 2 (sod % 3600 / 60)
    ++ ':' :: padNat 2 (sod % 60)

/-- `fmt_jst_from_epoch` from `src/app.py`: `if not epoch: return None` sends
both the absent timestamp and the integer `0` to `None`. -/
def fmt_jst_from_epoch (epoch : Option Int) : Option Str :=
  match epoch with
  | none => none
  | some e => if e = 0 then none else some (formatJstEpoch e)

/-- The fields of one entry of `data["quoteResponse"]["result"]` that
`build_df_from_results` reads via `q.get(...)`; each may be absent. -/
structure ProviderRecord where
  symbol : Option Str := none
  shortName : Option Str := none
  longName : Option Str := none
  regularMarketPrice : Option ℚ := none
  regularMarketChange : Option ℚ := none
  regularMarketChangePercent : Option ℚ := none
  marketState : Option Str := none
  regularMarketVolume : Option Int := none
  currency : Option Str := none
  regularMarketTime : Option Int := none
deriving DecidableEq, Repr

/-- One row of the DataFrame built by `build_df_from_results`. -/
structure QuoteRow where
  symbol : Option Str
  name : Option Str
  price : Option ℚ
  change : Option ℚ
  change_pct : Option ℚ
  market_state : Option Str
  volume : Option Int
  currency : Option Str
  time_jst : Option Str
deriving DecidableEq, Repr

/-- Python `a or b` on two optional strings: `a` unless it is `None` or
empty (falsy), else `b`.  Models `q.get("shortName") or q.get("longName")`. -/
def pyOrStr (a b : Option Str) : Option Str :=
  match a with
  | some s => if s = [] then b else some s
  | none => b

/-- The row appended for one provider record in `build_df_from_results`. -/
def rowOfRecord (q : ProviderRecord) : QuoteRow :=
  { symbol := q.symbol
    name := pyOrStr q.shortName q.longName
    price := q.regularMarketPrice
    change := q.regularMarketChange
    change_pct := q.regularMarketChangePercent
    market_state := q.marketState
    volume := q.regularMarketVolume
    currency := q.currency
    time_jst := fmt_jst_from_epoch q.regularMarketTime }

/-- The row appended for a requested symbol the provider did not return:
only `symbol` is populated, every other field is `None`. -/
def missingRow (s : Str) : QuoteRow :=
  { symbol := some s, name := none, price := none, change := none
    change_pct := none, market_state := none, volume := none
    currency := none, time_jst := none }

/-- Order on the `symbol` column used to model `df.sort_values("symbol")`:
ascending lexicographic, with a missing symbol (NaN) sorted last. -/
def symLe (a b : Option Str) : Bool :=
  match a, b with
  | none, none => true
  | none, some _ => false
  | some _, none => true
  | some x, some y => strLe x y

/-- The row order of `df.sort_values("symbol")`, as a relation. -/
def rowLe (r1 r2 : QuoteRow) : Prop := symLe r1.symbol r2.symbol = true

instance : DecidableRel rowLe := fun r1 r2 => by unfold rowLe; infer_instance

/-- `build_df_from_results` from `src/app.py`: one row per provider record,
then one all-`None` row per requested symbol not seen among the records,
sorted by the symbol column. -/
def build_df_from_results (results : List ProviderRecord)
    (requested_symbols : List Str) : List QuoteRow :=
  let rows := results.map rowOfRecord
  let got := results.map (·.symbol)
  let missing := requested_symbols.filter (fun s => decide (some s ∉ got))
  (rows ++ missing.map missingRow).insertionSort rowLe

/-- A scripted HTTP response: status code and body text. -/
structure HttpResp where
  status : ℕ
  text : Str

/-- A scripted quote-endpoint response: status code and, for the parsed JSON
body, `quoteResponse.result` when that envelope is present
(`data.get("quoteResponse", {}).get("result", [])` turns absence into `[]`). -/
structure QuoteResp where
  status : ℕ
  result : Option (List ProviderRecord)

/-- Oracle scripting the upstream endpoints: the response to the `n`-th
request made to each of the crumb and quote endpoints.  Bootstrap requests
(`GET finance.yahoo.com`) have their response discarded by the code, so only
their occurrence is traced. -/
structure Env where
  crumbResp : ℕ → HttpResp
  quoteResp : ℕ → QuoteResp

/-- The keys of `st.session_state` the fetching code uses: whether `yf_sess`
exists, and the cached crumb with its timestamp (absent keys read as `None`
and `0.0`). -/
structure SessState where
  yf_sess : Bool
  yf_crumb : Option Str
  yf_crumb_ts : ℤ
deriving DecidableEq, Repr

/-- Record of the requests issued to each endpoint, in particular the
`crumb` query parameter of every quote request in order (`none` would mean a
quote request issued without a crumb parameter). -/
structure Trace where
  bootstrapCalls : ℕ
  crumbCalls : ℕ
  quoteCalls : ℕ
  quoteCrumbParams : List (Option Str)
deriving DecidableEq, Repr

def Trace.empty : Trace := ⟨0, 0, 0, []⟩

def Trace.boot (tr : Trace) : Trace :=
  { tr with bootstrapCalls := tr.bootstrapCalls + 1 }

def Trace.crumbReq (tr : Trace) : Trace :=
  { tr with crumbCalls := tr.crumbCalls + 1 }

def Trace.quoteReq (tr : Trace) (crumbParam : Option Str) : Trace :=
  { tr with quoteCalls := tr.quoteCalls + 1
            quoteCrumbParams := tr.quoteCrumbParams ++ [crumbParam] }

/-- The exceptions the fetching code can raise: `requests.HTTPError` from
`raise_for_status()` (carrying the status code) and the `RuntimeError`
raised by `get_crumb` after its tries are exhausted. -/
inductive HErr where
  | http (status : ℕ)
  | runtime
deriving DecidableEq, Repr

/-- `get_yahoo_session` from `src/app.py`: on first use, create the session,
bootstrap it with one GET to the landing page, and reset the crumb cache. -/
def get_yahoo_session (st : SessState) (tr : Trace) : SessState × Trace :=
  if st.yf_sess then (st, tr)
  else (⟨true, none, 0⟩, tr.boot)

/-- The `for _ in range(2)` loop of `get_crumb`: issue the token request,
raise on a non-success status, cache and return a non-empty stripped body,
or re-bootstrap and try again on an empty body; raise `RuntimeError` when
the tries are exhausted. -/
def get_crumb_tries (env : Env) (now : ℤ) :
    ℕ → SessState → Trace → (Except HErr Str) × SessState × Trace
  | 0, st, tr => (.error .runtime, st, tr)
  | n + 1, st, tr =>
    let r := env.crumbResp tr.crumbCalls
    let tr1 := tr.crumbReq
    if 400 ≤ r.status then (.error (.http r.status), st, tr1)
    else
      let crumb := pyStrip r.text
      if crumb = [] then get_crumb_tries env now n st tr1.boot
      else (.ok crumb, { st with yf_crumb := some crumb, yf_crumb_ts := now }, tr1)

/-- `get_crumb` from `src/app.py`: return the cached crumb while it is
non-empty and younger than `max_age_sec`, otherwise run the two-try
acquisition loop. -/
def get_crumb (env : Env) (now : ℤ) (st : SessState) (tr : Trace)
    (max_age_sec : ℤ := 1800) : (Except HErr Str) × SessState × Trace :=
  match st.yf_crumb with
  | some c =>
    if c ≠ [] ∧ now - st.yf_crumb_ts < max_age_sec then (.ok c, st, tr)
    else get_crumb_tries env now 2 st tr
  | none => get_crumb_tries env now 2 st tr

/-- `quote_once` from `src/app.py`: obtain a crumb, issue the quote request
with `symbols` and `crumb` parameters; on 401/403 clear the cached crumb,
re-bootstrap, obtain a fresh crumb and retry once; then `raise_for_status`
and extract `quoteResponse.result` (defaulting to `[]`). -/
def quote_once (env : Env) (now : ℤ) (st : SessState) (tr : Trace)
    (symbols : List Str) : (Except HErr (List ProviderRecord)) × SessState × Trace :=
  match get_crumb env now st tr with
  | (.error e, st1, tr1) => (.error e, st1, tr1)
  | (.ok crumb, st1, tr1) =>
    let r := env.quoteResp tr1.quoteCalls
    let tr2 := tr1.quoteReq (some crumb)
    if r.status = 401 ∨ r.status = 403 then
      let st2 := { st1 with yf_crumb := none }
      match get_crumb env now st2 tr2.boot with
      | (.error e, st3, tr3) => (.error e, st3, tr3)
      | (.ok crumb2, st3, tr3) =>
        let r2 := env.quoteResp tr3.quoteCalls
        let tr4 := tr3.quoteReq (some crumb2)
        if 400 ≤ r2.status then (.error (.http r2.status), st3, tr4)
        else (.ok (r2.result.getD []), st3, tr4)
    else if 400 ≤ r.status then (.error (.http r.status), st1, tr2)
    else (.ok (r.result.getD []), st1, tr2)

/-- The chunk loop of `fetch_quotes_cached`: fetch each chunk in order,
concatenating results; the first exception aborts the loop. -/
def fetch_chunks (env : Env) (now : ℤ) :
    List (List Str) → SessState → Trace →
    (Except HErr (List ProviderRecord)) × SessState × Trace
  | [], st, tr => (.ok [], st, tr)
  | ch :: rest, st, tr =>
    match quote_once env now st tr ch with
    | (.error e, st1, tr1) => (.error e, st1, tr1)
    | (.ok rs, st1, tr1) =>
      match fetch_chunks env now rest st1 tr1 with
      | (.error e, st2, tr2) => (.error e, st2, tr2)
      | (.ok rs2, st2, tr2) => (.ok (rs ++ rs2), st2, tr2)

/-- `fetch_quotes_cached` from `src/app.py` (the fetch pipeline under the
`st.cache_data` decorator; the cache layer itself is not modelled): acquire
the session, fetch all chunks, and reconcile into the DataFrame. -/
def fetch_quotes_cached (env : Env) (now : ℤ) (symbols : List Str)
    (chunk_size : ℕ) (st : SessState) (tr : Trace) :
    (Except HErr (List QuoteRow)) × SessState × Trace :=
  let p := get_yahoo_session st tr
  match fetch_chunks env now (chunk_list symbols chunk_size) p.1 p.2 with
  | (.error e, st1, tr1) => (.error e, st1, tr1)
  | (.ok results, st1, tr1) =>
    (.ok (build_df_from_results results symbols), st1, tr1)

/-- Total order fact for `strLe` (models that Python string comparison is a
linear order). -/
theorem strLe_total (a b : Str) : strLe a b = true ∨ strLe b a = true := by
  simp only [strLe, decide_eq_true_eq]
  exact le_total a b

theorem strLe_trans {a b c : Str} (h1 : strLe a b = true) (h2 : strLe b c = true) :
    strLe a c = true := by
  simp only [strLe, decide_eq_true_eq] at *
  exact le_trans h1 h2

theorem symLe_total (a b : Option Str) : symLe a b = true ∨ symLe b a = true := by
  cases a <;> cases b <;> simp [symLe]
  exact strLe_total _ _

theorem symLe_trans {a b c : Option Str} (h1 : symLe a b = true)
    (h2 : symLe b c = true) : symLe a c = true := by
  cases a <;> cases b <;> cases c <;> simp [symLe] at *
  exact strLe_trans h1 h2

instance : IsTotal QuoteRow rowLe where
  total a b := symLe_total a.symbol b.symbol

instance : IsTrans QuoteRow rowLe where
  trans _ _ _ h1 h2 := symLe_trans h1 h2

/-- A session that has already been bootstrapped and has no cached crumb
(the state right after `get_yahoo_session` first runs). -/
def sessReady : SessState := ⟨true, none, 0⟩

/-- A bootstrapped session holding a freshly cached non-empty crumb. -/
def sessWithCrumb : SessState := ⟨true, some ("tok".data), 0⟩

/-- Scenario for the optimistic-first claim: the quote endpoint returns 403
to its first request and 200 (with one record) to the second; the crumb
endpoint answers 200 with a fresh token every time. -/
def envOptimistic : Env where
  crumbResp n := if n = 0 then ⟨200, "tok1".data⟩ else ⟨200, "tok2".data⟩
  quoteResp n :=
    if n = 0 then ⟨403, some []⟩
    else ⟨200, some [{ symbol := some ("AAPL".data) }]⟩

/-- Scenario for the crumb-retry claim: the token endpoint returns 429 to its
first two requests and then succeeds. -/
def envCrumb429 : Env where
  crumbResp n := if n ≤ 1 then ⟨429, []⟩ else ⟨200, "tok".data⟩
  quoteResp _ := ⟨200, some []⟩

/-- Scenario where the token endpoint always answers 200 with a
whitespace-only (hence stripped-empty) body. -/
def envCrumbEmpty : Env where
  crumbResp _ := ⟨200, [' ']⟩
  quoteResp _ := ⟨200, some []⟩

/-- Scenario where the token endpoint answers an empty body once and then a
token: the second try succeeds after a re-bootstrap. -/
def envCrumbEmptyOnce : Env where
  crumbResp n := if n = 0 then ⟨200, []⟩ else ⟨200, "tok".data⟩
  quoteResp _ := ⟨200, some []⟩

/-- Scenario for the quote-side 429 claim: quote endpoint always rate
limits; token endpoint always succeeds. -/
def envQuote429 : Env where
  crumbResp _ := ⟨200, "tok".data⟩
  quoteResp _ := ⟨429, none⟩

/-- Scenario with a generic quote-endpoint server error (500). -/
def envQuote500 : Env where
  crumbResp _ := ⟨200, "tok".data⟩
  quoteResp _ := ⟨500, none⟩

/-- Scenario where both endpoints always succeed (quote result empty). -/
def envIdle : Env where
  crumbResp _ := ⟨200, "tok".data⟩
  quoteResp _ := ⟨200, some []⟩

/-- The end-to-end example input `"7203\n#comment\n9984\nAAPL\n"`. -/
def tickersText : Str := "7203\n#comment\n9984\nAAPL\n".data

/-- A provider record for `AAPL` with typical populated fields. -/
def recApple : ProviderRecord :=
  { symbol := some ("AAPL".data), shortName := some ("Apple Inc.".data)
    regularMarketPrice := some 190, regularMarketChange := some 2
    regularMarketChangePercent := some 1, marketState := some ("REGULAR".data)
    regularMarketVolume := some 50000000, currency := some ("USD".data)
    regularMarketTime := some 1700000000 }

/-- A provider record for `7203.T` with typical populated fields. -/
def recToyota : ProviderRecord :=
  { symbol := some ("7203.T".data), shortName := some ("TOYOTA MOTOR CORP".data)
    regularMarketPrice := some 2500, currency := some ("JPY".data)
    regularMarketTime := some 1700000000 }

theorem get_crumb_tries_trace (env : Env) (now : ℤ) :
    ∀ (n : ℕ) (st : SessState) (tr : Trace),
      ((get_crumb_tries env now n st tr).2.2).quoteCalls = tr.quoteCalls ∧
      ((get_crumb_tries env now n st tr).2.2).quoteCrumbParams = tr.quoteCrumbParams ∧
      ((get_crumb_tries env now n st tr).2.2).crumbCalls ≤ tr.crumbCalls + n := by
  intro n
  induction n with
  | zero => intro st tr; simp [get_crumb_tries]
  | succ k ih =>
    intro st tr
    simp only [get_crumb_tries]
    split
    · simp [Trace.crumbReq]
    · split
      · refine ⟨(ih _ _).1, (ih _ _).2.1, ?_⟩
        have := (ih st ((tr.crumbReq).boot)).2.2
        simp only [Trace.crumbReq, Trace.boot] at *
        omega
      · simp [Trace.crumbReq]

theorem get_crumb_trace (env : Env) (now : ℤ) (st : SessState) (tr : Trace)
    (mas : ℤ) :
    ((get_crumb env now st tr mas).2.2).quoteCalls = tr.quoteCalls ∧
    ((get_crumb env now st tr mas).2.2).quoteCrumbParams = tr.quoteCrumbParams ∧
    ((get_crumb env now st tr mas).2.2).crumbCalls ≤ tr.crumbCalls + 2 := by
  rcases hc : st.yf_crumb with _ | c <;> simp only [get_crumb, hc]
  · exact get_crumb_tries_trace env now 2 st tr
  · split
    · simp
    · exact get_crumb_tries_trace env now 2 st tr

/-- C10: a provider timestamp of `0` is rendered exactly like an absent one:
`fmt_jst_from_epoch` returns `None` both for `0` and for `None`, so the epoch
instant 1970-01-01T00:00:00Z is indistinguishable from an omitted field. -/
theorem C10_epoch_zero_renders_as_absent :
    fmt_jst_from_epoch (some 0) = none ∧ fmt_jst_from_epoch none = none :=
  ⟨rfl, rfl⟩

/-- C3 counterexample: with a token endpoint that returns 429 exactly twice
and then succeeds, `get_crumb` does not succeed on a third attempt — it
raises the HTTP error immediately on the very first 429, after exactly one
token request, refuting both the 3-try/backoff schedule and the
429-consumes-a-retry-slot behaviour. -/
theorem C3_counterexample_429_fails_first_try :
    (get_crumb envCrumb429 0 sessReady Trace.empty).1 = .error (.http 429) ∧
    (get_crumb envCrumb429 0 sessReady Trace.empty).2.2.crumbCalls = 1 :=
  ⟨rfl, rfl⟩

/-- C3 amended: with no fresh cached crumb, `get_crumb` tries the token
request at most twice in total (no backoff is performed): a non-2xx status
such as 429 raises an HTTP error immediately rather than consuming a retry
slot; an empty 2xx body re-bootstraps the session and triggers the one
remaining try (succeeding if that try returns a token); two empty bodies
exhaust the tries and fail with a `RuntimeError` (not a rate-limit error). -/
theorem C3_amended_two_tries_no_429_retry :
    get_crumb envCrumb429 0 sessReady Trace.empty =
      (.error (.http 429), sessReady, ⟨0, 1, 0, []⟩) ∧
    get_crumb envCrumbEmpty 0 sessReady Trace.empty =
      (.error .runtime, sessReady, ⟨2, 2, 0, []⟩) ∧
    get_crumb envCrumbEmptyOnce 0 sessReady Trace.empty =
      (.ok ("tok".data), ⟨true, some ("tok".data), 0⟩, ⟨1, 2, 0, []⟩) ∧
    ∀ (env : Env) (now : ℤ) (st : SessState) (tr : Trace) (mas : ℤ),
      ((get_crumb env now st tr mas).2.2).crumbCalls ≤ tr.crumbCalls + 2 :=
  ⟨rfl, rfl, rfl, fun env now st tr mas => (get_crumb_trace env now st tr mas).2.2⟩

/-- C4 counterexample: the 429 from the quote endpoint is raised through the
exact same generic `raise_for_status` HTTP-error channel (`requests.HTTPError`,
embedded as `HErr.http status`) as any other non-success status such as 500 —
the code defines no distinct `RateLimitedError` type, so the failure is not
distinguishable from generic HTTP errors as an error kind (only the embedded
status code differs), refuting the distinguishability part of the claim. -/
theorem C4_counterexample_same_error_kind_as_500 :
    (quote_once envQuote429 0 sessWithCrumb Trace.empty ["AAPL".data]).1 =
      .error (.http 429) ∧
    (quote_once envQuote500 0 sessWithCrumb Trace.empty ["AAPL".data]).1 =
      .error (.http 500) :=
  ⟨rfl, rfl⟩

/-- C4 amended: when the quote endpoint answers 429 to the (crumb-carrying)
chunk request, `quote_once` fails immediately with the generic HTTP error
carrying status 429 — exactly one quote request is made past those of
`get_crumb`, with no retry and no extra crumb acquisition — but the failure
is only distinguishable from other HTTP failures by its status code, not by
a distinct rate-limit error kind. -/
theorem C4_amended_429_fails_immediately (env : Env) (now : ℤ) (st : SessState)
    (tr : Trace) (syms : List Str) (c : Str)
    (hok : (get_crumb env now st tr).1 = .ok c)
    (h429 : (env.quoteResp ((get_crumb env now st tr).2.2).quoteCalls).status = 429) :
    (quote_once env now st tr syms).1 = .error (.http 429) ∧
    ((quote_once env now st tr syms).2.2).quoteCalls =
      ((get_crumb env now st tr).2.2).quoteCalls + 1 ∧
    ((quote_once env now st tr syms).2.2).crumbCalls =
      ((get_crumb env now st tr).2.2).crumbCalls := by
  rcases hg : get_crumb env now st tr with ⟨res, st1, tr1⟩
  rw [hg] at hok h429
  simp only at hok h429
  subst hok
  simp only [quote_once, hg, h429]
  norm_num [Trace.quoteReq]

/-- Closed instance of `C4_amended_429_fails_immediately` at the concrete
429 scenario, discharging its hypotheses there. -/
theorem C4_amended_429_witness :
    (quote_once envQuote429 0 sessWithCrumb Trace.empty ["AAPL".data]).1 =
      .error (.http 429) ∧
    ((quote_once envQuote429 0 sessWithCrumb Trace.empty ["AAPL".data]).2.2).quoteCalls =
      ((get_crumb envQuote429 0 sessWithCrumb Trace.empty).2.2).quoteCalls + 1 ∧
    ((quote_once envQuote429 0 sessWithCrumb Trace.empty ["AAPL".data]).2.2).crumbCalls =
      ((get_crumb envQuote429 0 sessWithCrumb Trace.empty).2.2).crumbCalls :=
  C4_amended_429_fails_immediately envQuote429 0 sessWithCrumb Trace.empty
    ["AAPL".data] ("tok".data) rfl rfl

theorem quote_once_params (env : Env) (now : ℤ) (st : SessState) (tr : Trace)
    (syms : List Str) :
    ∃ l, ((quote_once env now st tr syms).2.2).quoteCrumbParams =
        tr.quoteCrumbParams ++ l ∧ ∀ p ∈ l, ∃ c, p = some c := by
  rcases hg : get_crumb env now st tr with ⟨res, st1, tr1⟩
  have htr1 : tr1.quoteCrumbParams = tr.quoteCrumbParams := by
    have := (get_crumb_trace env now st tr 1800).2.1
    rw [hg] at this; exact this
  cases res with
  | error e =>
    refine ⟨[], ?_, by simp⟩
    simp [quote_once, hg, htr1]
  | ok c =>
    simp only [quote_once, hg]
    split
    · rcases hg2 : get_crumb env now { st1 with yf_crumb := none }
        ((tr1.quoteReq (some c)).boot) with ⟨res2, st3, tr3⟩
      have htr3 : tr3.quoteCrumbParams = tr.quoteCrumbParams ++ [some c] := by
        have := (get_crumb_trace env now { st1 with yf_crumb := none }
          ((tr1.quoteReq (some c)).boot) 1800).2.1
        rw [hg2] at this
        simp only [Trace.boot, Trace.quoteReq] at this
        rw [this, htr1]
      cases res2 with
      | error e =>
        exact ⟨[some c], by simp [hg2, htr3], by simp⟩
      | ok c2 =>
        refine ⟨[some c, some c2], ?_, by simp⟩
        simp only [hg2]
        split <;> simp [Trace.quoteReq, htr3]
    · refine ⟨[some c], ?_, by simp⟩
      split <;> simp [Trace.quoteReq, htr1]

/-- C2 counterexample: in the 403-then-200 scenario (bootstrapped session, no
cached crumb), the very first request `quote_once` issues to the quote
endpoint already carries a crumb parameter (the code calls `get_crumb` before
the first request, not optimistically after a 401/403), and the crumb
endpoint receives 2 requests, not exactly 1 — refuting the optimistic-first
strategy of the claim. -/
theorem C2_counterexample_not_optimistic_first :
    ((quote_once envOptimistic 0 sessReady Trace.empty
        ["AAPL".data]).2.2).quoteCrumbParams.head? = some (some ("tok1".data)) ∧
    ((quote_once envOptimistic 0 sessReady Trace.empty
        ["AAPL".data]).2.2).crumbCalls = 2 :=
  ⟨rfl, rfl⟩

/-- C2 amended: `quote_once` obtains a crumb *before* its first quote request
and always attaches it as a request parameter; on a 401/403 response it
clears the cached crumb, re-bootstraps, obtains a fresh crumb and retries
exactly once.  In the 403-then-200 scenario with no cached crumb it issues
exactly 2 quote requests — both carrying a crumb parameter — and 2 crumb
endpoint requests (one more bootstrap in between), returning the second
response's records; in general every quote request a `quote_once` call
issues carries a crumb parameter. -/
theorem C2_amended_crumb_always_attached :
    quote_once envOptimistic 0 sessReady Trace.empty ["AAPL".data] =
      (.ok [{ symbol := some ("AAPL".data) }], ⟨true, some ("tok2".data), 0⟩,
        ⟨1, 2, 2, [some ("tok1".data), some ("tok2".data)]⟩) ∧
    ∀ (env : Env) (now : ℤ) (st : SessState) (syms : List Str) (p : Option Str),
      p ∈ ((quote_once env now st Trace.empty syms).2.2).quoteCrumbParams →
      ∃ c, p = some c := by
  refine ⟨rfl, fun env now st syms p hp => ?_⟩
  obtain ⟨l, hl, hall⟩ := quote_once_params env now st Trace.empty syms
  rw [hl] at hp
  simp only [Trace.empty, List.nil_append] at hp
  exact hall p hp

/-- Closed instance of the universal part of `C2_amended_crumb_always_attached`
at the concrete 403-then-200 scenario, discharging the membership
hypothesis there. -/
theorem C2_amended_witness :
    ∃ c, (some ("tok1".data) : Option Str) = some c :=
  C2_amended_crumb_always_attached.2 envOptimistic 0 sessReady ["AAPL".data]
    (some ("tok1".data)) (by decide)

/-- C9 counterexample: a fetch over the empty SymbolSet is *not* free of
network calls when the session does not yet exist — `fetch_quotes_cached`
unconditionally calls `get_yahoo_session`, which issues one bootstrap GET to
the landing page before the (empty) chunk loop, refuting "performs no
network call to any endpoint". -/
theorem C9_counterexample_bootstrap_on_empty_fetch :
    ((fetch_quotes_cached envIdle 0 [] 80 ⟨false, none, 0⟩
        Trace.empty).2.2).bootstrapCalls = 1 :=
  rfl

/-- C9 amended: normalizing empty input yields an empty SymbolSet, and a
fetch over an empty SymbolSet issues no request to the crumb or quote
endpoints: with an already-bootstrapped session it performs no network call
at all and returns an empty table; with a fresh session it performs exactly
the one bootstrap call of `get_yahoo_session` and nothing else. -/
theorem C9_amended_empty_fetch_short_circuits :
    load_symbols_from_text [] = [] ∧
    (∀ (env : Env) (now : ℤ) (cs : ℕ) (st : SessState) (tr : Trace),
      st.yf_sess = true →
      fetch_quotes_cached env now [] cs st tr = (.ok [], st, tr)) ∧
    (∀ (env : Env) (now : ℤ) (cs : ℕ) (st : SessState) (tr : Trace),
      st.yf_sess = false →
      fetch_quotes_cached env now [] cs st tr = (.ok [], ⟨true, none, 0⟩, tr.boot)) := by
  refine ⟨rfl, ?_, ?_⟩ <;> intro env now cs st tr h <;>
    simp [fetch_quotes_cached, get_yahoo_session, h, chunk_list, chunkAux,
      fetch_chunks, build_df_from_results]

/-- Closed instance of `C9_amended_empty_fetch_short_circuits` for a
bootstrapped session, discharging its hypothesis there. -/
theorem C9_amended_witness :
    fetch_quotes_cached envIdle 0 [] 80 sessReady Trace.empty =
      (.ok [], sessReady, Trace.empty) :=
  C9_amended_empty_fetch_short_circuits.2.1 envIdle 0 80 sessReady Trace.empty rfl

theorem chunkAux_join {α : Type} (size : ℕ) (hs : size ≠ 0) :
    ∀ (fuel : ℕ) (l : List α), l.length ≤ fuel →
      (chunkAux size fuel l).flatten = l := by
  intro fuel
  induction fuel with
  | zero =>
    intro l hl
    have : l = [] := List.eq_nil_of_length_eq_zero (Nat.le_zero.mp hl)
    subst this
    rfl
  | succ k ih =>
    intro l hl
    cases l with
    | nil => rfl
    | cons a rest =>
      simp only [chunkAux, List.flatten_cons]
      rw [ih ((a :: rest).drop size) ?_, List.take_append_drop]
      simp only [List.length_drop, List.length_cons] at *
      omega

theorem chunkAux_length_le {α : Type} (size : ℕ) :
    ∀ (fuel : ℕ) (l : List α) (c : List α), c ∈ chunkAux size fuel l →
      c.length ≤ size := by
  intro fuel
  induction fuel with
  | zero => intro l c hc; simp [chunkAux] at hc
  | succ k ih =>
    intro l c hc
    cases l with
    | nil => simp [chunkAux] at hc
    | cons a rest =>
      simp only [chunkAux, List.mem_cons] at hc
      rcases hc with rfl | hc
      · simp only [List.length_take]; omega
      · exact ih _ _ hc

theorem chunkAux_ne_nil {α : Type} (size fuel : ℕ) (a : α) (rest : List α)
    (hf : fuel ≠ 0) : chunkAux size fuel (a :: rest) ≠ [] := by
  cases fuel with
  | zero => exact absurd rfl hf
  | succ k => simp [chunkAux]

theorem chunkAux_dropLast_full {α : Type} (size : ℕ) (hs : size ≠ 0) :
    ∀ (fuel : ℕ) (l : List α), l.length ≤ fuel →
      ∀ c ∈ (chunkAux size fuel l).dropLast, c.length = size := by
  intro fuel
  induction fuel with
  | zero => intro l hl c hc; simp [chunkAux] at hc
  | succ k ih =>
    intro l hl c hc
    cases l with
    | nil => simp [chunkAux] at hc
    | cons a rest =>
      simp only [chunkAux] at hc
      rcases hd : (a :: rest).drop size with _ | ⟨b, rest2⟩
      · rw [hd] at hc
        have hz : chunkAux size k ([] : List α) = [] := by cases k <;> rfl
        rw [hz] at hc
        simp at hc
      · have hlen : (a :: rest).length ≤ k + 1 := hl
        have hdl : ((a :: rest).drop size).length = (a :: rest).length - size := by
          simp [List.length_drop]
        have hpos : 0 < ((a :: rest).drop size).length := by rw [hd]; simp
        have hsize_lt : size < (a :: rest).length := by omega
        have hdk : ((a :: rest).drop size).length ≤ k := by
          simp only [List.length_cons] at *
          omega
        have hk : k ≠ 0 := by omega
        rw [hd] at hc hdk
        have hT : chunkAux size k (b :: rest2) ≠ [] := chunkAux_ne_nil size k b rest2 hk
        rcases hTe : chunkAux size k (b :: rest2) with _ | ⟨t0, ts⟩
        · exact absurd hTe hT
        · rw [hTe] at hc
          simp only [List.dropLast_cons₂, List.mem_cons] at hc
          rcases hc with rfl | hc
          · simp only [List.length_take]
            omega
          · have := ih (b :: rest2) hdk c
            rw [hTe] at this
            exact this hc

/-- C8: for every list and chunk size of at least 1, `chunk_list` cuts the
list into consecutive chunks of length at most the size, where every chunk
but possibly the last has exactly the chunk size, and concatenating the
chunks in order restores the original list (hence chunks are pairwise
disjoint when the input has no duplicates). -/
theorem C8_chunk_list_partitions {α : Type} (l : List α) (size : ℕ)
    (h : 1 ≤ size) :
    (chunk_list l size).flatten = l ∧
    (∀ c ∈ chunk_list l size, c.length ≤ size) ∧
    (∀ c ∈ (chunk_list l size).dropLast, c.length = size) := by
  have hs : size ≠ 0 := by omega
  unfold chunk_list
  simp only [hs, if_false]
  exact ⟨chunkAux_join size hs l.length l le_rfl,
    fun c hc => chunkAux_length_le size l.length l c hc,
    chunkAux_dropLast_full size hs l.length l le_rfl⟩

/-- Closed instance of `C8_chunk_list_partitions` on a concrete list,
discharging its hypothesis there. -/
theorem C8_chunk_list_witness :
    (1 ≤ 2) ∧
    ((chunk_list [10, 20, 30] 2).flatten = [10, 20, 30] ∧
      (∀ c ∈ chunk_list [10, 20, 30] 2, c.length ≤ 2) ∧
      (∀ c ∈ (chunk_list [10, 20, 30] 2).dropLast, c.length = 2)) :=
  ⟨by decide, C8_chunk_list_partitions [10, 20, 30] 2 (by decide)⟩

/-- C5: `load_symbols_from_text` splits the input into lines, trims each,
drops blank and `#`-comment lines, applies the 4-digit `.T` suffix rule
(all inside `normalize_symbol`), deduplicates and sorts lexicographically:
the result is sorted, duplicate-free, contains exactly the normalized
non-dropped lines, and its length is the number of distinct values of
`normalize_symbol` over the input's lines. -/
theorem C5_normalize_dedup_sort (text : Str) :
    List.Sorted (· ≤ ·) (load_symbols_from_text text) ∧
    (load_symbols_from_text text).Nodup ∧
    (∀ s : Str, s ∈ load_symbols_from_text text ↔
        ∃ line ∈ pySplitlines text, normalize_symbol line = some s) ∧
    (load_symbols_from_text text).length =
      (((pySplitlines text).filterMap normalize_symbol).dedup).length := by
  have hperm := List.perm_insertionSort ((· ≤ ·) : Str → Str → Prop)
    (((pySplitlines text).filterMap normalize_symbol).dedup)
  refine ⟨List.sorted_insertionSort _ _, ?_, ?_, hperm.length_eq⟩
  · exact hperm.nodup_iff.mpr (List.nodup_dedup _)
  · intro s
    rw [show load_symbols_from_text text =
      (((pySplitlines text).filterMap normalize_symbol).dedup).insertionSort (· ≤ ·) from rfl]
    rw [hperm.mem_iff, List.mem_dedup, List.mem_filterMap]

/-- C6: every requested symbol with no provider record yields a row with only
the symbol populated and every other field `None`; and in the end-to-end
example, input `"7203\n#comment\n9984\nAAPL\n"` normalizes to
`["7203.T", "9984.T", "AAPL"]`, and with provider records only for `AAPL`
and `7203.T` the table has exactly 3 rows sorted `7203.T, 9984.T, AAPL`,
the `9984.T` row having all non-symbol fields absent. -/
theorem C6_missing_symbols_get_empty_rows :
    (∀ (results : List ProviderRecord) (requested : List Str) (s : Str),
      s ∈ requested → (∀ q ∈ results, q.symbol ≠ some s) →
      missingRow s ∈ build_df_from_results results requested) ∧
    load_symbols_from_text tickersText =
      [("7203.T".data), ("9984.T".data), ("AAPL".data)] ∧
    build_df_from_results [recApple, recToyota] (load_symbols_from_text tickersText) =
      [{ symbol := some ("7203.T".data), name := some ("TOYOTA MOTOR CORP".data)
         price := some 2500, change := none, change_pct := none
         market_state := none, volume := none, currency := some ("JPY".data)
         time_jst := some ("2023-11-15 07:13:20".data) },
       missingRow ("9984.T".data),
       { symbol := some ("AAPL".data), name := some ("Apple Inc.".data)
         price := some 190, change := some 2, change_pct := some 1
         market_state := some ("REGULAR".data), volume := some 50000000
         currency := some ("USD".data)
         time_jst := some ("2023-11-15 07:13:20".data) }] := by
  refine ⟨?_, rfl, rfl⟩
  intro results requested s hreq hmiss
  unfold build_df_from_results
  rw [(List.perm_insertionSort _ _).mem_iff]
  apply List.mem_append_right
  apply List.mem_map_of_mem
  rw [List.mem_filter]
  refine ⟨hreq, ?_⟩
  simp only [decide_eq_true_eq, List.mem_map]
  rintro ⟨q, hq, hqs⟩
  exact hmiss q hq hqs

/-- Closed instance of the universal part of
`C6_missing_symbols_get_empty_rows` at the end-to-end example, discharging
its hypotheses there. -/
theorem C6_missing_symbols_witness :
    missingRow ("9984.T".data) ∈
      build_df_from_results [recApple, recToyota]
        (load_symbols_from_text tickersText) :=
  C6_missing_symbols_get_empty_rows.1 [recApple, recToyota]
    (load_symbols_from_text tickersText) ("9984.T".data) (by decide) (by decide)

/-- C1 counterexample: the row-count invariant does not hold for *every*
provider response list — if the provider returns a record whose symbol was
never requested (here `B` against the requested list `[A]`), the
reconciled table has one row per record *plus* one per missing requested
symbol: 2 rows for 1 requested symbol. -/
theorem C1_counterexample_foreign_record :
    ([("A".data)] : List Str).length = 1 ∧
    (build_df_from_results [{ symbol := some ("B".data) }] [("A".data)]).length = 2 :=
  ⟨rfl, rfl⟩

/-- C1 amended: whenever the requested symbol list is duplicate-free and
every provider record carries a symbol that is among the requested symbols,
with records' symbols pairwise distinct (which a real provider response for
a SymbolSet satisfies), `build_df_from_results` produces exactly one row per
requested symbol, sorted ascending by symbol, with no duplicate symbols. -/
theorem C1_amended_reconcile_row_count (results : List ProviderRecord)
    (requested : List Str)
    (hreq : requested.Nodup)
    (hsub : ∀ q ∈ results, ∃ s, q.symbol = some s ∧ s ∈ requested)
    (hinj : (results.map (fun q => q.symbol)).Nodup) :
    (build_df_from_results results requested).length = requested.length ∧
    List.Sorted rowLe (build_df_from_results results requested) ∧
    ((build_df_from_results results requested).map (fun r => r.symbol)).Nodup := by
  classical
  set got := results.map (fun q => q.symbol) with hgot
  have hb : build_df_from_results results requested =
      (results.map rowOfRecord ++
        (requested.filter (fun s => decide (some s ∉ got))).map missingRow).insertionSort
        rowLe := rfl
  set base := results.map rowOfRecord ++
      (requested.filter (fun s => decide (some s ∉ got))).map missingRow with hbase
  have hperm0 : List.Perm (build_df_from_results results requested) base := by
    rw [hb]; exact List.perm_insertionSort _ _
  have hbase_syms : base.map (fun r => r.symbol) =
      got ++ (requested.filter (fun s => decide (some s ∉ got))).map some := by
    rw [hbase, List.map_append, List.map_map, List.map_map]
    rfl
  have hnodup_req : (requested.map some).Nodup :=
    hreq.map (Option.some_injective _)
  have h2 : List.Perm got ((requested.map some).filter (fun y => decide (y ∈ got))) := by
    refine (List.perm_ext_iff_of_nodup hinj (List.Nodup.filter _ hnodup_req)).mpr ?_
    intro a
    rw [List.mem_filter]
    constructor
    · intro ha
      refine ⟨?_, by simpa using ha⟩
      rw [hgot, List.mem_map] at ha
      obtain ⟨q, hq, hqa⟩ := ha
      obtain ⟨s, hs, hsmem⟩ := hsub q hq
      rw [List.mem_map]
      exact ⟨s, hsmem, by rw [← hqa, hs]⟩
    · intro ⟨_, ha⟩
      simpa using ha
  have h1 : (requested.filter (fun s => decide (some s ∉ got))).map some =
      (requested.map some).filter (fun y => decide (y ∉ got)) := by
    rw [List.filter_map]
    rfl
  have h3 : List.Perm ((requested.map some).filter (fun y => decide (y ∈ got)) ++
      (requested.map some).filter (fun y => decide (y ∉ got))) (requested.map some) := by
    have := List.filter_append_perm (fun y => decide (y ∈ got)) (requested.map some)
    simpa [decide_not] using this
  have hperm : List.Perm
      ((build_df_from_results results requested).map (fun r => r.symbol))
      (requested.map some) := by
    refine ((hperm0.map _).trans ?_)
    rw [hbase_syms, h1]
    exact (h2.append_right _).trans h3
  refine ⟨?_, ?_, hperm.nodup_iff.mpr hnodup_req⟩
  · have := hperm.length_eq
    simpa using this
  · rw [hb]
    exact List.sorted_insertionSort rowLe _

/-- Closed instance of `C1_amended_reconcile_row_count` on a concrete
response (a record for `A` against requested `[A, B]`), discharging its
hypotheses there. -/
theorem C1_amended_witness :
    (build_df_from_results [{ symbol := some ("A".data) }]
        [("A".data), ("B".data)]).length = [("A".data), ("B".data)].length ∧
    List.Sorted rowLe (build_df_from_results [{ symbol := some ("A".data) }]
        [("A".data), ("B".data)]) ∧
    ((build_df_from_results [{ symbol := some ("A".data) }]
        [("A".data), ("B".data)]).map (fun r => r.symbol)).Nodup :=
  C1_amended_reconcile_row_count _ _ (by decide)
    (fun q hq => by
      rw [List.mem_singleton] at hq
      subst hq
      exact ⟨"A".data, rfl, by decide⟩)
    (by decide)

theorem digit_not_ws {c : Char} (h : c.isDigit = true) : c.isWhitespace = false := by
  simp only [Char.isDigit, Bool.and_eq_true, decide_eq_true_eq] at h
  simp only [Char.isWhitespace]
  have h1 : c ≠ ' ' := by rintro rfl; exact absurd h.1 (by decide)
  have h2 : c ≠ '\t' := by rintro rfl; exact absurd h.1 (by decide)
  have h3 : c ≠ '\r' := by rintro rfl; exact absurd h.1 (by decide)
  have h4 : c ≠ '\n' := by rintro rfl; exact absurd h.1 (by decide)
  simp [h1, h2, h3, h4]

theorem tLeft_idem (l : Str) : trimLeft (trimLeft l) = trimLeft l :=
  List.dropWhile_idempotent _ _

theorem tRight_idem (l : Str) : trimRight (trimRight l) = trimRight l := by
  unfold trimRight
  rw [List.reverse_reverse, List.dropWhile_idempotent]

theorem tLeft_eq_self (l : Str)
    (h : ∀ c, l.head? = some c → c.isWhitespace = false) : trimLeft l = l := by
  cases l with
  | nil => rfl
  | cons c cs =>
    unfold trimLeft
    rw [List.dropWhile_cons]
    simp [h c rfl]

theorem tRight_eq_self (l : Str)
    (h : ∀ c, l.getLast? = some c → c.isWhitespace = false) : trimRight l = l := by
  unfold trimRight
  have hrw : l.reverse.dropWhile Char.isWhitespace = l.reverse := by
    apply tLeft_eq_self
    intro c hc
    rw [List.head?_reverse] at hc
    exact h c hc
  rw [hrw, List.reverse_reverse]

theorem tRight_head_cases (l : Str) :
    (trimRight l).head? = l.head? ∨ trimRight l = [] := by
  cases l with
  | nil => right; rfl
  | cons c cs =>
    unfold trimRight
    rw [List.reverse_cons, List.dropWhile_append]
    split
    · rcases hw : c.isWhitespace with _ | _
      · left; simp [List.dropWhile_cons, hw]
      · right; simp [List.dropWhile_cons, hw]
    · left
      rw [List.reverse_append]
      simp

theorem tLeft_head_not_ws (l : Str) :
    ∀ c, (trimLeft l).head? = some c → c.isWhitespace = false := by
  intro c hc
  have := List.head?_dropWhile_not Char.isWhitespace l
  unfold trimLeft at hc
  rw [hc] at this
  exact this

theorem pyStrip_idem (l : Str) : pyStrip (pyStrip l) = pyStrip l := by
  unfold pyStrip
  have hA : trimLeft (trimRight (trimLeft l)) = trimRight (trimLeft l) := by
    apply tLeft_eq_self
    intro c hc
    rcases tRight_head_cases (trimLeft l) with h | h
    · rw [h] at hc
      exact tLeft_head_not_ws l c hc
    · rw [h] at hc
      simp at hc
  rw [hA, tRight_idem]

theorem pyStrip_sublist (l : Str) : (pyStrip l).Sublist l := by
  unfold pyStrip
  have h1 : (trimRight (trimLeft l)).Sublist (trimLeft l) := by
    unfold trimRight
    have := (@List.dropWhile_sublist Char ((trimLeft l).reverse)
      Char.isWhitespace).reverse
    rwa [List.reverse_reverse] at this
  exact h1.trans (List.dropWhile_sublist _)

theorem normalize_symbol_self {line s : Str} (h : normalize_symbol line = some s) :
    normalize_symbol s = some s ∧ s ≠ [] ∧
      ∀ c ∈ s, c ∈ line ∨ c = '.' ∨ c = 'T' := by
  by_cases h1 : pyStrip line = [] ∨ (pyStrip line).head? = some '#'
  · simp only [normalize_symbol, h1, if_true] at h
    exact absurd h (by simp)
  · push_neg at h1
    obtain ⟨htne, hthead⟩ := h1
    by_cases h2 : (pyStrip line).all Char.isDigit = true ∧ (pyStrip line).length = 4
    · have hs : s = pyStrip line ++ ['.', 'T'] := by
        simp only [normalize_symbol] at h
        rw [if_neg (by push_neg; exact ⟨htne, hthead⟩), if_pos h2] at h
        exact (Option.some_injective _ h).symm
      obtain ⟨c0, hc0⟩ : ∃ c0, (pyStrip line).head? = some c0 := by
        cases hl : pyStrip line with
        | nil => exact absurd hl htne
        | cons a as => exact ⟨a, rfl⟩
      have hc0d : c0.isDigit = true := by
        have hmem : c0 ∈ pyStrip line := by
          cases hl : pyStrip line with
          | nil => exact absurd hl htne
          | cons a as => rw [hl] at hc0; simp at hc0; simp [hl, hc0]
        exact (List.all_eq_true.mp h2.1) c0 hmem
      have hshead : s.head? = some c0 := by
        rw [hs, List.head?_append, hc0]; rfl
      have hstrip : pyStrip s = s := by
        unfold pyStrip
        have hleft : trimLeft s = s := by
          apply tLeft_eq_self
          intro c hc
          rw [hshead] at hc
          cases hc
          exact digit_not_ws hc0d
        rw [hleft]
        apply tRight_eq_self
        intro c hc
        rw [hs, show pyStrip line ++ ['.', 'T'] =
          (pyStrip line ++ ['.']) ++ ['T'] by simp, List.getLast?_concat] at hc
        cases hc
        decide
      have hlen : s.length = (pyStrip line).length + 2 := by simp [hs]
      refine ⟨?_, by simp [hs], ?_⟩
      · simp only [normalize_symbol, hstrip]
        rw [if_neg, if_neg]
        · rintro ⟨_, hl4⟩
          rw [hlen, h2.2] at hl4
          simp at hl4
        · push_neg
          constructor
          · simp [hs]
          · rw [hshead]
            intro hcc
            cases hcc
            simp at hc0d
      · intro c hc
        rw [hs, List.mem_append] at hc
        rcases hc with hc | hc
        · exact Or.inl (List.Sublist.subset (pyStrip_sublist line) hc)
        · simp at hc
          rcases hc with rfl | rfl
          · exact Or.inr (Or.inl rfl)
          · exact Or.inr (Or.inr rfl)
    · have hs : s = pyStrip line := by
        simp only [normalize_symbol] at h
        rw [if_neg (by push_neg; exact ⟨htne, hthead⟩), if_neg h2] at h
        exact (Option.some_injective _ h).symm
      have hstrip : pyStrip s = s := by rw [hs]; exact pyStrip_idem line
      refine ⟨?_, by rw [hs]; exact htne, ?_⟩
      · simp only [normalize_symbol, hstrip]
        rw [if_neg, if_neg]
        · rw [hs]; exact h2
        · push_neg
          rw [hs]
          exact ⟨htne, hthead⟩
      · intro c hc
        rw [hs] at hc
        exact Or.inl (List.Sublist.subset (pyStrip_sublist line) hc)

theorem splitLinesAux_ne_nil (l : Str) : splitLinesAux l ≠ [] := by
  induction l using splitLinesAux.induct <;> simp_all [splitLinesAux]

theorem splitLinesAux_no_term (l : Str) :
    ∀ seg ∈ splitLinesAux l, '\n' ∉ seg ∧ '\r' ∉ seg := by
  induction l using splitLinesAux.induct with
  | case1 => intro seg hs; simp [splitLinesAux] at hs; subst hs; simp
  | case2 cs ih => intro seg hs; simp [splitLinesAux] at hs
                   rcases hs with rfl | hs
                   · simp
                   · exact ih seg hs
  | case3 cs ih => intro seg hs; simp [splitLinesAux] at hs
                   rcases hs with rfl | hs
                   · simp
                   · exact ih seg hs
  | case4 cs h ih => intro seg hs
                     rw [splitLinesAux.eq_4 cs h] at hs
                     simp at hs
                     rcases hs with rfl | hs
                     · simp
                     · exact ih seg hs
  | case5 c cs h1 h2 h3 hnil ih =>
    intro seg hs
    rw [splitLinesAux.eq_5 c cs h1 h2 h3, hnil] at hs
    simp at hs
    subst hs
    simp
  | case6 c cs h1 h2 h3 r rs hcons ih =>
    intro seg hs
    rw [splitLinesAux.eq_5 c cs h1 h2 h3, hcons] at hs
    simp at hs
    rcases hs with rfl | hs
    · have hr := ih r (by rw [hcons]; simp)
      constructor
      · simp [hr.1]
        intro hcn
        exact h2 hcn.symm
      · simp [hr.2]
        intro hcr
        exact h3 hcr.symm
    · exact ih seg (by rw [hcons]; simp [hs])

theorem splitLinesAux_append_line (s rest : Str) (h1 : '\n' ∉ s) (h2 : '\r' ∉ s) :
    splitLinesAux (s ++ rest) =
      (s ++ (splitLinesAux rest).headD []) :: (splitLinesAux rest).tail := by
  induction s with
  | nil =>
    simp only [List.nil_append]
    rcases he : splitLinesAux rest with _ | ⟨r, rs⟩
    · exact absurd he (splitLinesAux_ne_nil rest)
    · simp
  | cons c s' ih =>
    have hc1 : c ≠ '\n' := fun h => h1 (h ▸ List.mem_cons_self _ _)
    have hc2 : c ≠ '\r' := fun h => h2 (h ▸ List.mem_cons_self _ _)
    have hs1 : '\n' ∉ s' := fun h => h1 (List.mem_cons_of_mem _ h)
    have hs2 : '\r' ∉ s' := fun h => h2 (List.mem_cons_of_mem _ h)
    rw [List.cons_append,
      splitLinesAux.eq_5 c (s' ++ rest) (fun _ hcr _ => hc2 hcr)
        (fun h => hc1 h) (fun h => hc2 h),
      ih hs1 hs2]
    simp

theorem splitLinesAux_intercalate (L : List Str) (hne : L ≠ [])
    (hfree : ∀ s ∈ L, '\n' ∉ s ∧ '\r' ∉ s) :
    splitLinesAux (List.intercalate ['\n'] L) = L := by
  induction L with
  | nil => exact absurd rfl hne
  | cons s L' ih =>
    cases L' with
    | nil =>
      have hic : List.intercalate ['\n'] [s] = s := by
        simp [List.intercalate, List.intersperse]
      rw [hic, show s = s ++ ([] : Str) by simp] at *
      rw [splitLinesAux_append_line s [] (hfree s (by simp)).1 (hfree s (by simp)).2]
      simp [splitLinesAux]
    | cons t L'' =>
      have hic : List.intercalate ['\n'] (s :: t :: L'') =
          s ++ '\n' :: List.intercalate ['\n'] (t :: L'') := by
        simp [List.intercalate, List.intersperse]
      rw [hic,
        splitLinesAux_append_line s _ (hfree s (by simp)).1 (hfree s (by simp)).2]
      have haux : splitLinesAux ('\n' :: List.intercalate ['\n'] (t :: L'')) =
          [] :: splitLinesAux (List.intercalate ['\n'] (t :: L'')) := by
        simp [splitLinesAux]
      rw [haux, ih (by simp) (fun x hx => hfree x (List.mem_cons_of_mem _ hx))]
      simp

theorem pySplitlines_intercalate (L : List Str)
    (hfree : ∀ s ∈ L, s ≠ [] ∧ '\n' ∉ s ∧ '\r' ∉ s) :
    pySplitlines (List.intercalate ['\n'] L) = L := by
  cases L with
  | nil => rfl
  | cons s L' =>
    unfold pySplitlines
    rw [splitLinesAux_intercalate (s :: L') (by simp)
      (fun x hx => ⟨(hfree x hx).2.1, (hfree x hx).2.2⟩)]
    have hlast : (s :: L').getLast? ≠ some [] := by
      intro hg
      obtain ⟨hne, heq⟩ := List.mem_getLast?_eq_getLast hg
      exact (hfree _ (heq ▸ List.getLast_mem hne)).1 heq.symm
    simp [hlast]

theorem pySplitlines_subset (text : Str) :
    ∀ line ∈ pySplitlines text, line ∈ splitLinesAux text := by
  intro line h
  simp only [pySplitlines] at h
  split at h
  · exact List.Sublist.subset (List.dropLast_sublist _) h
  · exact h

theorem mem_load_symbols {text s : Str} :
    s ∈ load_symbols_from_text text ↔
      ∃ line ∈ pySplitlines text, normalize_symbol line = some s := by
  unfold load_symbols_from_text
  rw [(List.perm_insertionSort _ _).mem_iff, List.mem_dedup, List.mem_filterMap]

theorem load_mem_invariants {text s : Str} (hs : s ∈ load_symbols_from_text text) :
    normalize_symbol s = some s ∧ s ≠ [] ∧ '\n' ∉ s ∧ '\r' ∉ s := by
  obtain ⟨line, hline, hnorm⟩ := mem_load_symbols.mp hs
  obtain ⟨hself, hne, hsubset⟩ := normalize_symbol_self hnorm
  have hlf := splitLinesAux_no_term text line (pySplitlines_subset text line hline)
  refine ⟨hself, hne, ?_, ?_⟩
  · intro hmem
    rcases hsubset '\n' hmem with h | h | h
    · exact hlf.1 h
    · exact absurd h (by decide)
    · exact absurd h (by decide)
  · intro hmem
    rcases hsubset '\r' hmem with h | h | h
    · exact hlf.2 h
    · exact absurd h (by decide)
    · exact absurd h (by decide)

theorem filterMap_eq_self_of {α : Type} {f : α → Option α} {l : List α}
    (h : ∀ a ∈ l, f a = some a) : l.filterMap f = l := by
  induction l with
  | nil => rfl
  | cons a as ih =>
    rw [List.filterMap_cons, h a (by simp), ih (fun x hx => h x (by simp [hx]))]

theorem load_sorted (text : Str) :
    List.Sorted (fun a b => a ≤ b) (load_symbols_from_text text) :=
  List.sorted_insertionSort _ _

theorem load_nodup (text : Str) : (load_symbols_from_text text).Nodup :=
  (List.perm_insertionSort _ _).nodup_iff.mpr (List.nodup_dedup _)

/-- C7: `normalize` is idempotent — joining a normalized SymbolSet with
newlines and normalizing again returns the same SymbolSet:
`load_symbols_from_text (join(load_symbols_from_text text)) =
load_symbols_from_text text`. -/
theorem C7_normalize_idempotent (text : Str) :
    load_symbols_from_text (List.intercalate ['\n'] (load_symbols_from_text text)) =
      load_symbols_from_text text := by
  by_cases h0 : load_symbols_from_text text = []
  · rw [h0]; rfl
  · have hinv : ∀ s ∈ load_symbols_from_text text,
        normalize_symbol s = some s ∧ s ≠ [] ∧ '\n' ∉ s ∧ '\r' ∉ s :=
      fun s hs => load_mem_invariants hs
    rw [show load_symbols_from_text
        (List.intercalate ['\n'] (load_symbols_from_text text)) =
        (((pySplitlines (List.intercalate ['\n'] (load_symbols_from_text text))).filterMap
          normalize_symbol).dedup).insertionSort (fun a b => a ≤ b) from rfl]
    rw [pySplitlines_intercalate _
      (fun s hs => ⟨(hinv s hs).2.1, (hinv s hs).2.2.1, (hinv s hs).2.2.2⟩)]
    rw [filterMap_eq_self_of (fun s hs => (hinv s hs).1)]
    rw [List.dedup_eq_self.mpr (load_nodup text)]
    exact List.Sorted.insertionSort_eq (load_sorted text)
